import Mathlib

/-!
Verification of the constraint-assembly and state-bookkeeping core of the
Chrono repository fragments: the DOF-owner interface of ChNodeBase, the
global state vector manager, the bilateral-constraint classifier and
sparsity and Jacobian builder of ChConstraintBilateral, and the chase-camera
advance loop of ChVehicleVisualSystemVSG.

Machine reals are embedded as exact rationals, machine indices as Nat.
-/

namespace Chrono

/-! ## ChNodeBase: the DOF-owner interface (from ChNodeBase.h) -/

/-- Base state of a ChNodeBase object: the two offsets into the global state
vectors, fields offset_x (position part) and offset_w (speed part). -/
structure ChNodeBaseState where
  offset_x : Nat
  offset_w : Nat
deriving DecidableEq

/-- A node implementation as seen through the DOF-count interface: the only
pure-virtual member is GetNdofX, which every concrete node supplies. -/
structure ChNodeImpl where
  GetNdofX : Int

/-- Default implementation from the source: GetNdofW returns GetNdofX. -/
def ChNodeImpl.GetNdofW (n : ChNodeImpl) : Int := n.GetNdofX

/-- Default implementation from the source: GetNdofX_active returns the full
GetNdofX. -/
def ChNodeImpl.GetNdofX_active (n : ChNodeImpl) : Int := n.GetNdofX

/-- Default implementation from the source: GetNdofW_active returns GetNdofW. -/
def ChNodeImpl.GetNdofW_active (n : ChNodeImpl) : Int := n.GetNdofW

/-- Default implementation from the source: UseFullDof returns true. -/
def ChNodeImpl.UseFullDof (_ : ChNodeImpl) : Bool := true

/-! Default bodies of the state bookkeeping and solver interface operations.
In the source every one of them has an empty body, so each returns all of
its mutable arguments unchanged. The node itself is the mutable receiver,
modelled by a type parameter so the statement covers any concrete node
representation. -/

/-- NodeIntStateGather default: empty body, so the receiver, the global state
slice x, the global speed slice v and the time T come back unchanged. -/
def NodeIntStateGather {ν : Type} (node : ν) (_off_x : Nat) (x : List ℚ)
    (_off_v : Nat) (v : List ℚ) (T : ℚ) : ν × List ℚ × List ℚ × ℚ :=
  (node, x, v, T)

/-- NodeIntStateScatter default: empty body, receiver unchanged. -/
def NodeIntStateScatter {ν : Type} (node : ν) (_off_x : Nat) (_x : List ℚ)
    (_off_v : Nat) (_v : List ℚ) (_T : ℚ) : ν :=
  node

/-- InjectVariables default: empty body, receiver and descriptor unchanged. -/
def InjectVariables {ν α : Type} (node : ν) (mdescriptor : α) : ν × α :=
  (node, mdescriptor)

/-- VariablesFbReset default: empty body, receiver unchanged. -/
def VariablesFbReset {ν : Type} (node : ν) : ν := node

/-- VariablesFbLoadForces default: empty body, receiver unchanged. -/
def VariablesFbLoadForces {ν : Type} (node : ν) (_factor : ℚ) : ν := node

/-- VariablesQbLoadSpeed default: empty body, receiver unchanged. -/
def VariablesQbLoadSpeed {ν : Type} (node : ν) : ν := node

/-- VariablesFbIncrementMq default: empty body, receiver unchanged. -/
def VariablesFbIncrementMq {ν : Type} (node : ν) : ν := node

/-- VariablesQbSetSpeed default: empty body, receiver unchanged. -/
def VariablesQbSetSpeed {ν : Type} (node : ν) (_step : ℚ) : ν := node

/-- VariablesQbIncrementPosition default: empty body, receiver unchanged. -/
def VariablesQbIncrementPosition {ν : Type} (node : ν) (_step : ℚ) : ν := node

/-- The global data an interface operation may touch: the global position
state, the global speed state, the time, and the system descriptor contents.
Mirrors the ChState, ChStateDelta, double and ChSystemDescriptor arguments. -/
structure GlobalState where
  x : List ℚ
  v : List ℚ
  time : ℚ
  descr : List Nat
deriving DecidableEq

/-- The member operations of ChNodeBase, one constructor per member function
of the source header, each carrying its value arguments. The serialization
members ArchiveOUT and ArchiveIN are declared without bodies in the sources
and are outside the state bookkeeping interface, so they are not modelled. -/
inductive NodeOp where
  | nodeGetOffsetX
  | nodeGetOffsetW
  | nodeSetOffsetX (moff : Nat)
  | nodeSetOffsetW (moff : Nat)
  | intStateGather (off_x off_v : Nat)
  | intStateScatter (off_x off_v : Nat)
  | intStateGatherAcceleration (off_a : Nat)
  | intStateScatterAcceleration (off_a : Nat)
  | intStateIncrement (off_x off_v : Nat)
  | intStateGetIncrement (off_x off_v : Nat)
  | intLoadResidualF (off : Nat) (c : ℚ)
  | intLoadResidualMv (off : Nat) (c : ℚ)
  | intToDescriptor (off_v : Nat)
  | intFromDescriptor (off_v : Nat)
  | injectVariables
  | variablesFbReset
  | variablesFbLoadForces (factor : ℚ)
  | variablesQbLoadSpeed
  | variablesFbIncrementMq
  | variablesQbSetSpeed (step : ℚ)
  | variablesQbIncrementPosition (step : ℚ)
deriving DecidableEq

/-- Effect of one ChNodeBase member operation on the node base state and the
global data, following the source bodies: NodeSetOffset_x and NodeSetOffset_w
assign the corresponding offset field; the getters read only; every other
member has an empty default body and so changes nothing. -/
def runNodeOp (op : NodeOp) (n : ChNodeBaseState) (g : GlobalState) :
    ChNodeBaseState × GlobalState :=
  match op with
  | .nodeSetOffsetX moff => ({ n with offset_x := moff }, g)
  | .nodeSetOffsetW moff => ({ n with offset_w := moff }, g)
  | .intStateGather off_x off_v =>
      let r := NodeIntStateGather n off_x g.x off_v g.v g.time
      (r.1, { g with x := r.2.1, v := r.2.2.1, time := r.2.2.2 })
  | .intStateScatter off_x off_v =>
      (NodeIntStateScatter n off_x g.x off_v g.v g.time, g)
  | .injectVariables =>
      let r := InjectVariables n g.descr
      (r.1, { g with descr := r.2 })
  | .variablesFbReset => (VariablesFbReset n, g)
  | .variablesFbLoadForces factor => (VariablesFbLoadForces n factor, g)
  | .variablesQbLoadSpeed => (VariablesQbLoadSpeed n, g)
  | .variablesFbIncrementMq => (VariablesFbIncrementMq n, g)
  | .variablesQbSetSpeed step => (VariablesQbSetSpeed n step, g)
  | .variablesQbIncrementPosition step => (VariablesQbIncrementPosition n step, g)
  | _ => (n, g)

/-! ## Global State Vector Manager (Setup) -/

/-- A registered DOF-owner as the manager sees it: full and active DOF counts
for the position and speed parts, the UseFullDof flag, and the two offsets
the manager assigns through NodeSetOffset_x and NodeSetOffset_w. -/
structure DofOwner where
  ndof_x : Nat
  ndof_w : Nat
  ndof_x_active : Nat
  ndof_w_active : Nat
  useFullDof : Bool
  offset_x : Nat
  offset_w : Nat
deriving DecidableEq

/-- Position-state size the manager reserves for one owner. Modelled from the
spec: if UseFullDof assign ndof_x, else assign ndof_x_active. -/
def sizeX (o : DofOwner) : Nat := if o.useFullDof then o.ndof_x else o.ndof_x_active

/-- Speed-state size the manager reserves for one owner. Modelled from the
spec: if UseFullDof assign ndof_w, else assign ndof_w_active. -/
def sizeW (o : DofOwner) : Nat := if o.useFullDof then o.ndof_w else o.ndof_w_active

/-- A valid owner: when UseFullDof holds, no DOF is fixed, so the active
counts agree with the full counts. -/
def ValidOwner (o : DofOwner) : Prop :=
  o.useFullDof = true → o.ndof_x_active = o.ndof_x ∧ o.ndof_w_active = o.ndof_w

instance (o : DofOwner) : Decidable (ValidOwner o) := by
  unfold ValidOwner; infer_instance

/-- Modelled from the spec (the manager implementation is not among the
sources): walk the owners in registration order, give each the running
offsets through its offset setters, and accumulate by the reserved sizes.
Returns the owners with offsets assigned and the two accumulated totals. -/
def setupLoop : Nat → Nat → List DofOwner → List DofOwner × Nat × Nat
  | ox, ow, [] => ([], ox, ow)
  | ox, ow, o :: rest =>
      (({ o with offset_x := ox, offset_w := ow } :
          DofOwner) :: (setupLoop (ox + sizeX o) (ow + sizeW o) rest).1,
        (setupLoop (ox + sizeX o) (ow + sizeW o) rest).2.1,
        (setupLoop (ox + sizeX o) (ow + sizeW o) rest).2.2)

/-- Modelled from the spec: Setup starts both running offsets at 0 and
processes the registered owners in order. -/
def Setup (owners : List DofOwner) : List DofOwner × Nat × Nat :=
  setupLoop 0 0 owners

/-! ## State increments (NodeIntStateIncrement / NodeIntStateGetIncrement)

The bodies of these two members are not among the sources (the header only
declares them), so they are modelled from the spec: x_new = x plus Dv with
componentwise vector addition for translational DOFs, and quaternion
composition for rotational DOFs. -/

/-- A quaternion with exact rational components, e0 the scalar part. -/
structure ChQuaternion where
  e0 : ℚ
  e1 : ℚ
  e2 : ℚ
  e3 : ℚ
deriving DecidableEq

/-- Hamilton product of two quaternions. -/
def qmul (p q : ChQuaternion) : ChQuaternion :=
  { e0 := p.e0 * q.e0 - p.e1 * q.e1 - p.e2 * q.e2 - p.e3 * q.e3
    e1 := p.e0 * q.e1 + p.e1 * q.e0 + p.e2 * q.e3 - p.e3 * q.e2
    e2 := p.e0 * q.e2 - p.e1 * q.e3 + p.e2 * q.e0 + p.e3 * q.e1
    e3 := p.e0 * q.e3 + p.e1 * q.e2 - p.e2 * q.e1 + p.e3 * q.e0 }

/-- Quaternion conjugate. -/
def qconj (q : ChQuaternion) : ChQuaternion :=
  { e0 := q.e0, e1 := -q.e1, e2 := -q.e2, e3 := -q.e3 }

/-- Squared norm of a quaternion; a rotation quaternion has qnormsq 1. -/
def qnormsq (q : ChQuaternion) : ℚ :=
  q.e0 * q.e0 + q.e1 * q.e1 + q.e2 * q.e2 + q.e3 * q.e3

/-- Modelled from the spec: translational StateIncrement, componentwise
x_new = x + Dv. -/
def transStateIncrement (x Dv : List ℚ) : List ℚ :=
  List.zipWith (fun a d => a + d) x Dv

/-- Modelled from the spec: translational StateGetIncrement, componentwise
Dv = x_new - x, the inverse of transStateIncrement. -/
def transStateGetIncrement (x x_new : List ℚ) : List ℚ :=
  List.zipWith (fun b a => b - a) x_new x

/-- Modelled from the spec: rotational StateIncrement composes the stored
rotation with the incremental rotation by quaternion composition. -/
def rotStateIncrement (q dq : ChQuaternion) : ChQuaternion := qmul q dq

/-- Modelled from the spec: rotational StateGetIncrement recovers the
incremental rotation between q and q_new by composing with the conjugate. -/
def rotStateGetIncrement (q q_new : ChQuaternion) : ChQuaternion :=
  qmul (qconj q) q_new

/-! ## ChConstraintBilateral: classification, sparsity, Jacobian fill -/

/-- Kinds of DOF-owners a bilateral constraint can connect, following the
classes named by the constraint type enumeration of the source. -/
inductive OwnerKind where
  | body
  | shaft
deriving DecidableEq

/-- The constraint type enumeration from the source. -/
inductive BilateralKind where
  | BODY_BODY
  | SHAFT_SHAFT
  | SHAFT_SHAFT_SHAFT
  | SHAFT_BODY
  | SHAFT_SHAFT_BODY
  | UNKNOWN
deriving DecidableEq

/-- The owner-kind sequences for which the enumeration names a Jacobian
rule: the five supported configurations. -/
def HasJacobianRule (kinds : List OwnerKind) : Prop :=
  kinds ∈ [[OwnerKind.body, OwnerKind.body],
           [OwnerKind.shaft, OwnerKind.shaft],
           [OwnerKind.shaft, OwnerKind.shaft, OwnerKind.shaft],
           [OwnerKind.shaft, OwnerKind.body],
           [OwnerKind.shaft, OwnerKind.shaft, OwnerKind.body]]

instance (kinds : List OwnerKind) : Decidable (HasJacobianRule kinds) := by
  unfold HasJacobianRule; infer_instance

/-- Modelled from the spec (the classification body is not among the
sources): inspect the concrete kinds of the connected owners and return the
matching enumeration value, UNKNOWN when the pairing is unsupported. -/
def Classify (kinds : List OwnerKind) : BilateralKind :=
  match kinds with
  | [.body, .body] => .BODY_BODY
  | [.shaft, .shaft] => .SHAFT_SHAFT
  | [.shaft, .shaft, .shaft] => .SHAFT_SHAFT_SHAFT
  | [.shaft, .body] => .SHAFT_BODY
  | [.shaft, .shaft, .body] => .SHAFT_SHAFT_BODY
  | _ => .UNKNOWN

/-- A constraint record for classification: the kinds of the two or three
owners its anchors connect, in anchor order. -/
structure ConstraintAnchors where
  anchors : List OwnerKind
deriving DecidableEq

/-- Classification of a constraint, a function of its connected owner kinds
only. -/
def classifyConstraint (c : ConstraintAnchors) : BilateralKind :=
  Classify c.anchors

/-- The ChConstraintBilateral object from the source: its only data member
is the pointer to the system data manager, left unset by the constructor. -/
structure ChConstraintBilateral where
  data_manager : Option Nat
deriving DecidableEq

/-- Construction of a bilateral constraint between owners of the given
kinds, following the source constructor, whose body is empty: the owner
kinds are not inspected, no check runs, and construction always returns a
constraint; the error channel is never used. -/
def constructBilateral (_kinds : List OwnerKind) :
    Except String ChConstraintBilateral :=
  Except.ok { data_manager := none }

/-- One scalar bilateral constraint row as the sparsity builder sees it: its
row index in the global Jacobian and the owners it connects. -/
structure BilateralRow where
  row : Nat
  connected : List DofOwner
deriving DecidableEq

/-- The speed-state columns one connected owner occupies: the block from
offset_w of width ndof_w_active. -/
def ownerCols (o : DofOwner) : List Nat :=
  (List.range o.ndof_w_active).map (fun k => o.offset_w + k)

/-- The (row, column) slots one constraint row marks: one block per
connected owner. -/
def rowSlots (c : BilateralRow) : List (Nat × Nat) :=
  c.connected.foldr (fun o acc => (ownerCols o).map (fun col => (c.row, col)) ++ acc) []

/-- Modelled from the spec: the sparsity pattern is the sequential
concatenation, in constraint order, of the slots of every active
constraint. -/
def computePattern (rows : List BilateralRow) : List (Nat × Nat) :=
  rows.foldr (fun c acc => rowSlots c ++ acc) []

/-- Assembly-side state of the bilateral Jacobian: the active constraint
rows (the structure), the cached sparsity pattern, and the numerical value
stored at each slot. -/
structure JacobianState where
  rows : List BilateralRow
  pattern : List (Nat × Nat)
  vals : Nat × Nat → ℚ

/-- Modelled from the spec and the source comment: GenerateSparsity derives
the pattern from the current structure and fills the nonzero entries with
ones; it reads only the structure. -/
def GenerateSparsity (s : JacobianState) : JacobianState :=
  { s with
    pattern := computePattern s.rows
    vals := fun p => if p ∈ computePattern s.rows then 1 else 0 }

/-- Modelled from the spec and the source comment (no allocation is
performed here, GenerateSparsity should take care of that): Build_D takes
the numerical Jacobian entries, here an arbitrary function jac supplied by
the per-joint kinematics, and writes them only into the slots of the
pre-existing pattern. -/
def Build_D (jac : Nat × Nat → ℚ) (s : JacobianState) : JacobianState :=
  { s with vals := fun p => if p ∈ s.pattern then jac p else s.vals p }

/-! ## ChVehicleVisualSystemVSG::Advance (from the source) -/

/-- The camera advance loop from the source, with an explicit iteration
budget: while t is below step, take h as the smaller of m_stepsize and the
remaining duration, record the camera update sub-step h, and add h to t.
Returns the list of sub-steps passed to the camera, or none when the budget
runs out before the loop condition fails. -/
def advLoop (m_stepsize step : ℚ) : Nat → ℚ → Option (List ℚ)
  | 0, t => if t < step then none else some []
  | fuel + 1, t =>
      if t < step then
        (advLoop m_stepsize step fuel (t + min m_stepsize (step - t))).map
          (fun l => min m_stepsize (step - t) :: l)
      else some []

/-- The advance loop as called by Advance: t starts at 0. -/
def advanceSubsteps (m_stepsize step : ℚ) (fuel : Nat) : Option (List ℚ) :=
  advLoop m_stepsize step fuel 0

/-- True exactly on the two offset setter operations NodeSetOffset_x and
NodeSetOffset_w. -/
def isOffsetSetter : NodeOp → Bool
  | .nodeSetOffsetX _ => true
  | .nodeSetOffsetW _ => true
  | _ => false

/-! ## Theorems -/

/-- C8: for every DOF-owner that does not override the interface defaults,
GetNdofW returns GetNdofX, GetNdofX_active returns GetNdofX, GetNdofW_active
returns GetNdofW, and UseFullDof returns true. -/
theorem node_default_dof_interface (n : ChNodeImpl) :
    n.GetNdofW = n.GetNdofX ∧ n.GetNdofX_active = n.GetNdofX ∧
    n.GetNdofW_active = n.GetNdofW ∧ n.UseFullDof = true :=
  ⟨rfl, rfl, rfl, rfl⟩

/-- C9: for every DOF-owner using the default implementations, the state
gather and scatter operations and all solver-injection operations leave the
owner, the supplied global state vectors, and the solver descriptor
unchanged. -/
theorem node_default_ops_noop {ν α : Type} (node : ν) (off_x off_v : Nat)
    (x v : List ℚ) (T : ℚ) (d : α) (factor stp : ℚ) :
    NodeIntStateGather node off_x x off_v v T = (node, x, v, T) ∧
    NodeIntStateScatter node off_x x off_v v T = node ∧
    InjectVariables node d = (node, d) ∧
    VariablesFbReset node = node ∧
    VariablesFbLoadForces node factor = node ∧
    VariablesQbLoadSpeed node = node ∧
    VariablesFbIncrementMq node = node ∧
    VariablesQbSetSpeed node stp = node ∧
    VariablesQbIncrementPosition node stp = node :=
  ⟨rfl, rfl, rfl, rfl, rfl, rfl, rfl, rfl, rfl⟩

/-- C7: among the ChNodeBase member operations, only the two offset setters
NodeSetOffset_x and NodeSetOffset_w (the entry points the state vector
manager uses during Setup) change the stored offset_x and offset_w; every
other operation leaves both offsets unchanged. -/
theorem offsets_mutated_only_by_setters (op : NodeOp) (n : ChNodeBaseState)
    (g : GlobalState) (h : isOffsetSetter op = false) :
    (runNodeOp op n g).1.offset_x = n.offset_x ∧
    (runNodeOp op n g).1.offset_w = n.offset_w := by
  cases op
  case nodeSetOffsetX m => exact absurd h (by simp [isOffsetSetter])
  case nodeSetOffsetW m => exact absurd h (by simp [isOffsetSetter])
  all_goals exact ⟨rfl, rfl⟩

/-- Witness for C7 at a concrete non-setter operation and node. -/
theorem offsets_mutated_only_by_setters_witness :
    isOffsetSetter (NodeOp.intStateGather 0 0) = false ∧
    ((runNodeOp (NodeOp.intStateGather 0 0) ⟨3, 4⟩ ⟨[], [], 0, []⟩).1.offset_x = 3 ∧
     (runNodeOp (NodeOp.intStateGather 0 0) ⟨3, 4⟩ ⟨[], [], 0, []⟩).1.offset_w = 4) :=
  ⟨rfl, offsets_mutated_only_by_setters (NodeOp.intStateGather 0 0) ⟨3, 4⟩
    ⟨[], [], 0, []⟩ rfl⟩

/-- C3: running GenerateSparsity twice in a row, with no structural change
between the two calls, yields the same Jacobian state, in particular the
same sparsity pattern, as a single call. -/
theorem generateSparsity_idempotent (s : JacobianState) :
    GenerateSparsity (GenerateSparsity s) = GenerateSparsity s :=
  rfl

/-- C4: with a sparsity pattern already established, Build_D leaves the
structure and the pattern unchanged, rewrites values at the pre-existing
slots with the supplied Jacobian entries, and leaves the value at every slot
outside the pattern untouched. -/
theorem build_D_frame (jac : Nat × Nat → ℚ) (s : JacobianState) :
    (Build_D jac s).rows = s.rows ∧
    (Build_D jac s).pattern = s.pattern ∧
    (∀ p, p ∈ s.pattern → (Build_D jac s).vals p = jac p) ∧
    (∀ p, p ∉ s.pattern → (Build_D jac s).vals p = s.vals p) := by
  refine ⟨rfl, rfl, ?_, ?_⟩
  · intro p hp
    simp [Build_D, hp]
  · intro p hp
    simp [Build_D, hp]

/-- Witness for C4 at a concrete pattern, value table and probe slots. -/
theorem build_D_frame_witness :
    ((0, 1) ∈ [((0 : Nat), (0 : Nat)), (0, 1)]) ∧ ((7, 8) ∉ [((0 : Nat), (0 : Nat)), (0, 1)]) ∧
    ((Build_D (fun _ => 5) ⟨[], [(0, 0), (0, 1)], fun _ => 9⟩).vals (0, 1) = 5 ∧
     (Build_D (fun _ => 5) ⟨[], [(0, 0), (0, 1)], fun _ => 9⟩).vals (7, 8) =
       (⟨[], [(0, 0), (0, 1)], fun _ => 9⟩ : JacobianState).vals (7, 8)) :=
  ⟨by decide, by decide,
   (build_D_frame (fun _ => 5) ⟨[], [(0, 0), (0, 1)], fun _ => 9⟩).2.2.1 (0, 1) (by decide),
   (build_D_frame (fun _ => 5) ⟨[], [(0, 0), (0, 1)], fun _ => 9⟩).2.2.2 (7, 8) (by decide)⟩

/-- C5: classification always lands in the six-value enumeration, and it is
a pure deterministic function of the connected owner kinds: two constraints
whose anchors carry equal owner kinds classify identically. -/
theorem classify_total_deterministic :
    (∀ c : ConstraintAnchors,
        classifyConstraint c = BilateralKind.BODY_BODY ∨
        classifyConstraint c = BilateralKind.SHAFT_SHAFT ∨
        classifyConstraint c = BilateralKind.SHAFT_SHAFT_SHAFT ∨
        classifyConstraint c = BilateralKind.SHAFT_BODY ∨
        classifyConstraint c = BilateralKind.SHAFT_SHAFT_BODY ∨
        classifyConstraint c = BilateralKind.UNKNOWN) ∧
    (∀ c1 c2 : ConstraintAnchors, c1.anchors = c2.anchors →
        classifyConstraint c1 = classifyConstraint c2) := by
  constructor
  · intro c
    cases h : classifyConstraint c <;> simp
  · intro c1 c2 h
    unfold classifyConstraint
    rw [h]

/-- Witness for C5 at two concrete constraints with equal anchor kinds. -/
theorem classify_total_deterministic_witness :
    ((⟨[OwnerKind.shaft, OwnerKind.body]⟩ : ConstraintAnchors).anchors =
      (⟨[OwnerKind.shaft, OwnerKind.body]⟩ : ConstraintAnchors).anchors) ∧
    classifyConstraint ⟨[OwnerKind.shaft, OwnerKind.body]⟩ =
      classifyConstraint ⟨[OwnerKind.shaft, OwnerKind.body]⟩ :=
  ⟨rfl, classify_total_deterministic.2 ⟨[OwnerKind.shaft, OwnerKind.body]⟩
    ⟨[OwnerKind.shaft, OwnerKind.body]⟩ rfl⟩

/-- C6 counterexample: three rigid bodies classify as UNKNOWN, yet the
constructor, whose body in the source is empty, still returns a constraint:
construction does not fail. -/
theorem unknown_construction_succeeds_cex :
    Classify [OwnerKind.body, OwnerKind.body, OwnerKind.body] = BilateralKind.UNKNOWN ∧
    constructBilateral [OwnerKind.body, OwnerKind.body, OwnerKind.body] =
      Except.ok { data_manager := none } :=
  ⟨rfl, rfl⟩

/-- C6 amended: for every constraint connecting owner kinds with no defined
Jacobian rule, classification yields UNKNOWN; the constructor performs no
validation, so construction nevertheless succeeds rather than being rejected
at construction time. -/
theorem unknown_classified_construction_succeeds (kinds : List OwnerKind)
    (h : ¬ HasJacobianRule kinds) :
    Classify kinds = BilateralKind.UNKNOWN ∧
    constructBilateral kinds = Except.ok { data_manager := none } := by
  refine ⟨?_, rfl⟩
  rcases kinds with _ | ⟨a, t1⟩
  · rfl
  rcases t1 with _ | ⟨b, t2⟩
  · cases a <;> rfl
  rcases t2 with _ | ⟨c, t3⟩
  · cases a <;> cases b <;> first | rfl | exact absurd (by decide) h
  rcases t3 with _ | ⟨d, t4⟩
  · cases a <;> cases b <;> cases c <;> first | rfl | exact absurd (by decide) h
  · cases a <;> cases b <;> cases c <;> cases d <;> rfl

/-- Witness for the amended C6 at a concrete unsupported configuration. -/
theorem unknown_classified_construction_succeeds_witness :
    (¬ HasJacobianRule [OwnerKind.body, OwnerKind.shaft]) ∧
    (Classify [OwnerKind.body, OwnerKind.shaft] = BilateralKind.UNKNOWN ∧
     constructBilateral [OwnerKind.body, OwnerKind.shaft] =
       Except.ok { data_manager := none }) :=
  ⟨by decide, unknown_classified_construction_succeeds
    [OwnerKind.body, OwnerKind.shaft] (by decide)⟩

/-- Componentwise round trip for the translational increment. -/
lemma trans_roundtrip (x Dv : List ℚ) (hlen : x.length = Dv.length) :
    transStateGetIncrement x (transStateIncrement x Dv) = Dv := by
  induction x generalizing Dv with
  | nil =>
      cases Dv with
      | nil => rfl
      | cons d ds => simp at hlen
  | cons a t ih =>
      cases Dv with
      | nil => simp at hlen
      | cons d ds =>
          have ht : t.length = ds.length := by simpa using hlen
          simp only [transStateIncrement, transStateGetIncrement,
            List.zipWith_cons_cons, List.cons.injEq] at *
          exact ⟨by ring, ih ds ht⟩

/-- Round trip for the rotational increment: composing with an increment
quaternion and then extracting the increment through the conjugate recovers
it, for any unit stored rotation. -/
lemma rot_roundtrip (q dq : ChQuaternion) (hq : qnormsq q = 1) :
    rotStateGetIncrement q (rotStateIncrement q dq) = dq := by
  obtain ⟨a, b, c, d⟩ := q
  obtain ⟨w, x, y, z⟩ := dq
  simp only [qnormsq] at hq
  simp only [rotStateIncrement, rotStateGetIncrement, qmul, qconj,
    ChQuaternion.mk.injEq]
  refine ⟨?_, ?_, ?_, ?_⟩
  · linear_combination w * hq
  · linear_combination x * hq
  · linear_combination y * hq
  · linear_combination z * hq

/-- C2: StateIncrement followed by StateGetIncrement with the same starting
state recovers the original increment Dv, both for translational owners
(componentwise vector addition) and for rotational owners (quaternion
composition with a unit stored rotation). -/
theorem state_increment_roundtrip (x Dv : List ℚ) (q dq : ChQuaternion)
    (hlen : x.length = Dv.length) (hq : qnormsq q = 1) :
    transStateGetIncrement x (transStateIncrement x Dv) = Dv ∧
    rotStateGetIncrement q (rotStateIncrement q dq) = dq :=
  ⟨trans_roundtrip x Dv hlen, rot_roundtrip q dq hq⟩

/-- Witness for C2 at a concrete state, increment, unit quaternion and
quaternion increment. -/
theorem state_increment_roundtrip_witness :
    (([1, 2] : List ℚ).length = ([3, 4] : List ℚ).length) ∧
    qnormsq ⟨3/5, 4/5, 0, 0⟩ = 1 ∧
    (transStateGetIncrement [1, 2] (transStateIncrement [1, 2] [3, 4]) = [3, 4] ∧
     rotStateGetIncrement ⟨3/5, 4/5, 0, 0⟩
        (rotStateIncrement ⟨3/5, 4/5, 0, 0⟩ ⟨1, 2, 3, 4⟩) = ⟨1, 2, 3, 4⟩) :=
  ⟨rfl, by norm_num [qnormsq],
   state_increment_roundtrip [1, 2] [3, 4] ⟨3/5, 4/5, 0, 0⟩ ⟨1, 2, 3, 4⟩ rfl
     (by norm_num [qnormsq])⟩

/-- When the loop condition already fails, the loop exits at once with no
camera update, whatever the iteration budget. -/
lemma advLoop_done (s step : ℚ) (fuel : Nat) (t : ℚ) (h : ¬ t < step) :
    advLoop s step fuel t = some [] := by
  cases fuel <;> simp [advLoop, h]

/-- With an iteration budget covering the remaining duration, the loop
completes: it returns the sub-step list, whose entries are positive and at
most the step size and whose exact sum is the remaining duration (clamped at
zero). -/
lemma advLoop_complete (s step : ℚ) (hs : 0 < s) :
    ∀ fuel : Nat, ∀ t : ℚ, step - t ≤ (fuel : ℚ) * s →
      ∃ l, advLoop s step fuel t = some l ∧
        l.sum = max (step - t) 0 ∧ ∀ h ∈ l, 0 < h ∧ h ≤ s := by
  intro fuel
  induction fuel with
  | zero =>
      intro t hle
      simp only [Nat.cast_zero, zero_mul] at hle
      have hnlt : ¬ t < step := by linarith
      refine ⟨[], advLoop_done s step 0 t hnlt, ?_, ?_⟩
      · simp only [List.sum_nil]
        symm
        exact max_eq_right (by linarith)
      · intro h hh
        simp at hh
  | succ fuel ih =>
      intro t hle
      by_cases ht : t < step
      · have hrempos : 0 < step - t := by linarith
        have hpos : 0 < min s (step - t) := lt_min hs hrempos
        have hle_s : min s (step - t) ≤ s := min_le_left _ _
        have hle_rem : min s (step - t) ≤ step - t := min_le_right _ _
        have hcast : ((fuel + 1 : Nat) : ℚ) = (fuel : ℚ) + 1 := by push_cast; ring
        have hrec : step - (t + min s (step - t)) ≤ (fuel : ℚ) * s := by
          rcases le_total s (step - t) with hcase | hcase
          · rw [min_eq_left hcase]
            rw [hcast] at hle
            linarith
          · rw [min_eq_right hcase]
            have hnn : (0 : ℚ) ≤ (fuel : ℚ) * s := by positivity
            linarith
        obtain ⟨l, hl, hsum, hmem⟩ := ih (t + min s (step - t)) hrec
        refine ⟨min s (step - t) :: l, ?_, ?_, ?_⟩
        · simp [advLoop, ht, hl]
        · have h1 : max (step - (t + min s (step - t))) 0 =
              step - (t + min s (step - t)) := max_eq_left (by linarith)
          have h2 : max (step - t) 0 = step - t := max_eq_left (by linarith)
          rw [List.sum_cons, hsum, h1, h2]
          ring
        · intro a ha
          rcases List.mem_cons.mp ha with rfl | ha
          · exact ⟨hpos, hle_s⟩
          · exact hmem a ha
      · refine ⟨[], advLoop_done s step _ t ht, ?_, ?_⟩
        · simp only [List.sum_nil]
          symm
          exact max_eq_right (by linarith [not_lt.mp ht])
        · intro h hh
          simp at hh

/-- C10: for every requested duration and positive step size, the advance
loop terminates (some iteration budget lets it run to completion); every
camera update receives a sub-step h with 0 < h and h at most the step size;
in exact arithmetic the sub-steps sum to exactly the requested duration when
it is positive; and for a nonpositive duration the camera is never
updated. -/
theorem advance_loop_substeps (s step : ℚ) (hs : 0 < s) :
    ∃ fuel l, advanceSubsteps s step fuel = some l ∧
      (∀ h ∈ l, 0 < h ∧ h ≤ s) ∧
      (0 < step → l.sum = step) ∧
      (step ≤ 0 → l = []) := by
  have hbound : step - 0 ≤ ((Nat.ceil (step / s) : Nat) : ℚ) * s := by
    have h1 : step / s ≤ ((Nat.ceil (step / s) : Nat) : ℚ) := Nat.le_ceil _
    have h2 : step / s * s ≤ ((Nat.ceil (step / s) : Nat) : ℚ) * s :=
      mul_le_mul_of_nonneg_right h1 (le_of_lt hs)
    rw [div_mul_cancel₀ step (ne_of_gt hs)] at h2
    linarith
  obtain ⟨l, hl, hsum, hmem⟩ := advLoop_complete s step hs (Nat.ceil (step / s)) 0 hbound
  refine ⟨Nat.ceil (step / s), l, hl, hmem, ?_, ?_⟩
  · intro hstep
    rw [hsum, sub_zero]
    exact max_eq_left (le_of_lt hstep)
  · intro hstep
    have hdone : advLoop s step (Nat.ceil (step / s)) 0 = some [] :=
      advLoop_done s step _ 0 (by linarith)
    have : some l = some ([] : List ℚ) := by
      rw [← hl]
      exact hdone
    exact Option.some.inj this

/-- Witness for C10 at step size 1 and requested duration 5/2. -/
theorem advance_loop_substeps_witness :
    (0 : ℚ) < 1 ∧
    (∃ fuel l, advanceSubsteps 1 (5/2) fuel = some l ∧
      (∀ h ∈ l, 0 < h ∧ h ≤ (1 : ℚ)) ∧
      ((0 : ℚ) < 5/2 → l.sum = 5/2) ∧
      ((5/2 : ℚ) ≤ 0 → l = [])) :=
  ⟨by norm_num, advance_loop_substeps 1 (5/2) (by norm_num)⟩

/-- Setup assigns offsets to every registered owner: result length. -/
lemma setupLoop_length (owners : List DofOwner) : ∀ ox ow : Nat,
    (setupLoop ox ow owners).1.length = owners.length := by
  induction owners with
  | nil => intro ox ow; rfl
  | cons o rest ih =>
      intro ox ow
      show (setupLoop (ox + sizeX o) (ow + sizeW o) rest).1.length + 1 = rest.length + 1
      rw [ih]

/-- The accumulated totals of the setup walk are the starting offsets plus
the reserved sizes of all owners. -/
lemma setupLoop_totals (owners : List DofOwner) : ∀ ox ow : Nat,
    (setupLoop ox ow owners).2.1 = ox + (owners.map sizeX).sum ∧
    (setupLoop ox ow owners).2.2 = ow + (owners.map sizeW).sum := by
  induction owners with
  | nil => intro ox ow; simp [setupLoop]
  | cons o rest ih =>
      intro ox ow
      obtain ⟨e1, e2⟩ := ih (ox + sizeX o) (ow + sizeW o)
      constructor
      · show (setupLoop (ox + sizeX o) (ow + sizeW o) rest).2.1 = _
        rw [e1, List.map_cons, List.sum_cons]
        omega
      · show (setupLoop (ox + sizeX o) (ow + sizeW o) rest).2.2 = _
        rw [e2, List.map_cons, List.sum_cons]
        omega

/-- Each owner in the setup walk receives as offsets the starting offsets
plus the reserved sizes of the owners before it. -/
lemma setupLoop_get (owners : List DofOwner) : ∀ ox ow i
    (hi : i < (setupLoop ox ow owners).1.length),
    ((setupLoop ox ow owners).1.get ⟨i, hi⟩).offset_x =
      ox + ((owners.take i).map sizeX).sum ∧
    ((setupLoop ox ow owners).1.get ⟨i, hi⟩).offset_w =
      ow + ((owners.take i).map sizeW).sum := by
  induction owners with
  | nil =>
      intro ox ow i hi
      simp [setupLoop] at hi
  | cons o rest ih =>
      intro ox ow i hi
      cases i with
      | zero => exact ⟨by simp [setupLoop], by simp [setupLoop]⟩
      | succ j =>
          have hj : j < (setupLoop (ox + sizeX o) (ow + sizeW o) rest).1.length := by
            have h1 := hi
            rw [setupLoop_length] at h1 ⊢
            simpa using h1
          obtain ⟨e1, e2⟩ := ih (ox + sizeX o) (ow + sizeW o) j hj
          have hstep : ((setupLoop ox ow (o :: rest)).1.get ⟨j + 1, hi⟩) =
              ((setupLoop (ox + sizeX o) (ow + sizeW o) rest).1.get ⟨j, hj⟩) := rfl
          constructor
          · rw [hstep, e1, List.take_succ_cons, List.map_cons, List.sum_cons]
            omega
          · rw [hstep, e2, List.take_succ_cons, List.map_cons, List.sum_cons]
            omega

/-- For valid owners the reserved sizes agree with the active DOF counts. -/
lemma map_size_active (owners : List DofOwner)
    (hv : ∀ o ∈ owners, ValidOwner o) :
    owners.map sizeX = owners.map DofOwner.ndof_x_active ∧
    owners.map sizeW = owners.map DofOwner.ndof_w_active := by
  induction owners with
  | nil => exact ⟨rfl, rfl⟩
  | cons o rest ih =>
      have ho := hv o (by simp)
      obtain ⟨h1, h2⟩ := ih (fun u hu => hv u (by simp [hu]))
      cases hfull : o.useFullDof
      · constructor <;> simp [sizeX, sizeW, hfull, h1, h2]
      · obtain ⟨ha, hb⟩ := ho hfull
        constructor <;> simp [sizeX, sizeW, hfull, ha, hb, h1, h2]

/-- A prefix sum of naturals is at most the full sum. -/
lemma sum_take_le_nat (l : List Nat) (m : Nat) : (l.take m).sum ≤ l.sum := by
  conv_rhs => rw [← List.take_append_drop m l]
  rw [List.sum_append]
  exact Nat.le_add_right _ _

/-- Prefix sums of naturals are monotone in the prefix length. -/
lemma sum_take_mono_nat (l : List Nat) {m n : Nat} (h : m ≤ n) :
    (l.take m).sum ≤ (l.take n).sum := by
  have he : (l.take n).take m = l.take m := by
    rw [List.take_take, min_eq_left h]
  rw [← he]
  exact sum_take_le_nat _ _

/-- C1: for every valid owner registration sequence, Setup assigns each
owner offsets equal to the accumulated active DOF counts of the owners
registered before it, so the offsets start at 0, are contiguous and
non-overlapping, and the accumulated position and speed state sizes equal
the sums of the active ndof_x and active ndof_w over all owners. -/
theorem setup_offsets_spec (owners : List DofOwner)
    (hv : ∀ o ∈ owners, ValidOwner o) :
    ((Setup owners).1.length = owners.length) ∧
    ((Setup owners).2.1 = (owners.map DofOwner.ndof_x_active).sum) ∧
    ((Setup owners).2.2 = (owners.map DofOwner.ndof_w_active).sum) ∧
    (∀ i (hi : i < (Setup owners).1.length),
       ((Setup owners).1.get ⟨i, hi⟩).offset_x =
         ((owners.take i).map DofOwner.ndof_x_active).sum ∧
       ((Setup owners).1.get ⟨i, hi⟩).offset_w =
         ((owners.take i).map DofOwner.ndof_w_active).sum) ∧
    (∀ i j (hi : i < (Setup owners).1.length) (hj : j < (Setup owners).1.length)
       (hio : i < owners.length), i + 1 ≤ j →
       ((Setup owners).1.get ⟨i, hi⟩).offset_x + (owners.get ⟨i, hio⟩).ndof_x_active ≤
         ((Setup owners).1.get ⟨j, hj⟩).offset_x ∧
       ((Setup owners).1.get ⟨i, hi⟩).offset_w + (owners.get ⟨i, hio⟩).ndof_w_active ≤
         ((Setup owners).1.get ⟨j, hj⟩).offset_w) := by
  obtain ⟨hmx, hmw⟩ := map_size_active owners hv
  simp only [Setup]
  have hlen := setupLoop_length owners 0 0
  have htot := setupLoop_totals owners 0 0
  have hget : ∀ i (hi : i < (setupLoop 0 0 owners).1.length),
      ((setupLoop 0 0 owners).1.get ⟨i, hi⟩).offset_x =
        ((owners.take i).map DofOwner.ndof_x_active).sum ∧
      ((setupLoop 0 0 owners).1.get ⟨i, hi⟩).offset_w =
        ((owners.take i).map DofOwner.ndof_w_active).sum := by
    intro i hi
    obtain ⟨e1, e2⟩ := setupLoop_get owners 0 0 i hi
    constructor
    · rw [e1, List.map_take, hmx, ← List.map_take]
      omega
    · rw [e2, List.map_take, hmw, ← List.map_take]
      omega
  refine ⟨hlen, ?_, ?_, hget, ?_⟩
  · rw [htot.1, hmx]
    omega
  · rw [htot.2, hmw]
    omega
  · intro i j hi hj hio hij
    obtain ⟨ei1, ei2⟩ := hget i hi
    obtain ⟨ej1, ej2⟩ := hget j hj
    have hixa : i < (owners.map DofOwner.ndof_x_active).length := by
      rw [List.length_map]; exact hio
    have hiwa : i < (owners.map DofOwner.ndof_w_active).length := by
      rw [List.length_map]; exact hio
    have hsx : ((owners.map DofOwner.ndof_x_active).take (i + 1)).sum =
        ((owners.map DofOwner.ndof_x_active).take i).sum +
          (owners.get ⟨i, hio⟩).ndof_x_active := by
      rw [List.sum_take_succ _ i hixa]
      congr 1
      simp
    have hsw : ((owners.map DofOwner.ndof_w_active).take (i + 1)).sum =
        ((owners.map DofOwner.ndof_w_active).take i).sum +
          (owners.get ⟨i, hio⟩).ndof_w_active := by
      rw [List.sum_take_succ _ i hiwa]
      congr 1
      simp
    have hmono_x := sum_take_mono_nat (owners.map DofOwner.ndof_x_active) hij
    have hmono_w := sum_take_mono_nat (owners.map DofOwner.ndof_w_active) hij
    constructor
    · rw [ei1, ej1, List.map_take, List.map_take]
      omega
    · rw [ei2, ej2, List.map_take, List.map_take]
      omega

/-- A concrete registration sequence: a full-DOF owner, an owner with fixed
DOFs, and another full-DOF owner. -/
def demoOwners : List DofOwner :=
  [⟨3, 3, 3, 3, true, 99, 99⟩, ⟨7, 6, 4, 3, false, 0, 0⟩, ⟨1, 1, 1, 1, true, 5, 5⟩]

/-- Witness for C1 at the concrete registration sequence demoOwners. -/
theorem setup_offsets_spec_witness :
    (∀ o ∈ demoOwners, ValidOwner o) ∧
    (((Setup demoOwners).1.length = demoOwners.length) ∧
     ((Setup demoOwners).2.1 = (demoOwners.map DofOwner.ndof_x_active).sum) ∧
     ((Setup demoOwners).2.2 = (demoOwners.map DofOwner.ndof_w_active).sum) ∧
     (∀ i (hi : i < (Setup demoOwners).1.length),
        ((Setup demoOwners).1.get ⟨i, hi⟩).offset_x =
          ((demoOwners.take i).map DofOwner.ndof_x_active).sum ∧
        ((Setup demoOwners).1.get ⟨i, hi⟩).offset_w =
          ((demoOwners.take i).map DofOwner.ndof_w_active).sum) ∧
     (∀ i j (hi : i < (Setup demoOwners).1.length)
        (hj : j < (Setup demoOwners).1.length)
        (hio : i < demoOwners.length), i + 1 ≤ j →
        ((Setup demoOwners).1.get ⟨i, hi⟩).offset_x +
            (demoOwners.get ⟨i, hio⟩).ndof_x_active ≤
          ((Setup demoOwners).1.get ⟨j, hj⟩).offset_x ∧
        ((Setup demoOwners).1.get ⟨i, hi⟩).offset_w +
            (demoOwners.get ⟨i, hio⟩).ndof_w_active ≤
          ((Setup demoOwners).1.get ⟨j, hj⟩).offset_w)) :=
  ⟨by decide, setup_offsets_spec demoOwners (by decide)⟩

end Chrono
